import Mathlib

/-!
Verification of the opicrawler batch-processing engine against its
specification.  The definitions below are shallow embeddings of the Python
source files `async_requests.py`, `async_memoize.py`, `async_ai_extraction.py`
and `async_screenshots.py`: pure logic is translated to Lean functions, the
in-place dictionary updates of the Python code are modelled by returning the
updated value (the caller's object after the call equals the returned value),
wall-clock time is passed explicitly as a natural number, and the network /
service collaborators are passed as oracle functions.
-/

namespace Opicrawler

/-! ## Transport-fetch error classification (`async_requests._error_to_retry`)

The aiohttp exception hierarchy relevant to the classifier:
`ClientResponseError`, `ClientConnectorCertificateError` and every other
`ClientError` are all subclasses of `ClientError`; `asyncio.TimeoutError` is
outside that hierarchy.  The inductive below has one constructor per class of
exception the classifier can distinguish. -/

inductive FetchException where
  | clientResponseError (status : Nat)
  | clientConnectorCertificateError
  | otherClientError
  | timeoutError
  | otherException
deriving DecidableEq

/-- Membership in aiohttp's `ClientResponseError` class. -/
def FetchException.responseStatus : FetchException → Option Nat
  | .clientResponseError s => some s
  | _ => none

/-- Membership in aiohttp's `ClientConnectorCertificateError` class. -/
def FetchException.isCertificateError : FetchException → Bool
  | .clientConnectorCertificateError => true
  | _ => false

/-- Membership in aiohttp's `ClientError` class (all three aiohttp
constructors are subclasses of it). -/
def FetchException.isClientError : FetchException → Bool
  | .clientResponseError _ => true
  | .clientConnectorCertificateError => true
  | .otherClientError => true
  | _ => false

/-- Membership in `asyncio.TimeoutError`. -/
def FetchException.isTimeoutError : FetchException → Bool
  | .timeoutError => true
  | _ => false

/-- Embedding of `async_requests._error_to_retry` (lines 32-43): HTTP status
errors are retried exactly when the status is at least 500, certificate
verification errors are never retried, and otherwise any `ClientError` or
`TimeoutError` is retried. -/
def error_to_retry (exc : FetchException) : Bool :=
  match exc.responseStatus with
  | some status => decide (500 ≤ status)
  | none =>
    if exc.isCertificateError then false
    else exc.isClientError || exc.isTimeoutError

/-! ## URL resolution with scheme fallback (`async_requests._resolve_url`)

The redirect-resolution collaborator `_resolve_redirects` is abstracted as an
oracle from the start URL to either the final URL or the recognized error
(`aiohttp.ClientError` / `asyncio.TimeoutError`) it raises. -/

/-- One recorded resolution failure, as appended to `url_resolution_errors`. -/
structure UrlError where
  start_url : String
  error : String
deriving DecidableEq

/-- Results dictionary built by `_resolve_url`; a `none` field models an
absent key. -/
structure ResolveResults where
  final_url : Option String
  start_url : Option String
  url_resolution_errors : List UrlError
deriving DecidableEq

/-- Loop body of `_resolve_url` (lines 91-101) over the remaining schemes,
carrying the accumulated error list and the list of start URLs attempted so
far (the trace of `_resolve_redirects` invocations). -/
def resolveUrlGo (oracle : String → Except String String) (domain : String) :
    List String → List UrlError → List String → ResolveResults × List String
  | [], errs, tried =>
    ({ final_url := none, start_url := none, url_resolution_errors := errs }, tried)
  | scheme :: rest, errs, tried =>
    let startUrl := scheme ++ "://" ++ domain
    match oracle startUrl with
    | .ok finalUrl =>
      ({ final_url := some finalUrl, start_url := some startUrl,
         url_resolution_errors := errs }, tried ++ [startUrl])
    | .error e =>
      resolveUrlGo oracle domain rest (errs ++ [{ start_url := startUrl, error := e }])
        (tried ++ [startUrl])

/-- Embedding of `async_requests._resolve_url` (lines 87-104): try the schemes
`https` then `http`; stop at the first success; record each failure.  Also
returns the trace of attempted start URLs. -/
def resolve_url (oracle : String → Except String String) (domain : String) :
    ResolveResults × List String :=
  resolveUrlGo oracle domain ["https", "http"] [] []

/-! ## The fetch stage (`async_requests._request`, `gather_responses`)

The DNS collaborator `resolve_ip_addresses` is abstracted as a function from
the final URL to the list of resolved addresses, and the HTML fetch
`_fetch_html` as an oracle returning either the page text or the recognized
error (`aiohttp.ClientError` / `asyncio.TimeoutError`) it raises. -/

/-- Result dictionary built by `_request`; a `none` field models an absent
key, and `url_resolution_errors = []` models that key being absent. -/
structure RequestData where
  identifier : Nat
  final_url : Option String
  start_url : Option String
  url_resolution_errors : List UrlError
  ip_addresses : Option (List String)
  external_to_opiferum : Option Bool
  html : Option String
  html_fetch_error : Option String
deriving DecidableEq

/-- Result of one `_request` call together with how many times the body ran
`callback(advance_secondary=1)` and `callback(advance=1)`. -/
structure RequestOutcome where
  data : RequestData
  secondaryCalls : Nat
  advanceCalls : Nat
deriving DecidableEq

/-- Embedding of `async_requests._request` (lines 107-127): resolve the URL,
then — when a final URL was found — resolve its IP addresses; when those do
not intersect the opiferum set, mark the data external and return early
(skipping `callback(advance=1)`); otherwise fetch the HTML, recording a
recognized fetch error under `html_fetch_error`. -/
def request (resolveOracle : String → Except String String)
    (dns : String → List String) (fetchHtml : String → Except String String)
    (opiferum : List String) (job : Nat × String) : RequestOutcome :=
  let base : RequestData :=
    { identifier := job.1
      final_url := (resolve_url resolveOracle job.2).1.final_url
      start_url := (resolve_url resolveOracle job.2).1.start_url
      url_resolution_errors := (resolve_url resolveOracle job.2).1.url_resolution_errors
      ip_addresses := none
      external_to_opiferum := none
      html := none
      html_fetch_error := none }
  match base.final_url with
  | none => { data := base, secondaryCalls := 1, advanceCalls := 1 }
  | some finalUrl =>
    let ips := dns finalUrl
    let withIps := { base with ip_addresses := some ips }
    if ips.all (fun ip => decide (ip ∉ opiferum)) then
      { data := { withIps with external_to_opiferum := some true }
        secondaryCalls := 1, advanceCalls := 0 }
    else
      let internal := { withIps with external_to_opiferum := some false }
      match fetchHtml finalUrl with
      | .ok text =>
        { data := { internal with html := some text }
          secondaryCalls := 1, advanceCalls := 1 }
      | .error e =>
        { data := { internal with html_fetch_error := some e }
          secondaryCalls := 1, advanceCalls := 1 }

/-- Per-task results as stored by the `TaskGroup`: one `(task index, result)`
pair per completed task, in completion order. -/
def taskTable (f : Nat → α) (completionOrder : List Nat) : List (Nat × α) :=
  completionOrder.map fun i => (i, f i)

/-- Embedding of `async_requests.gather_responses` (lines 130-156): one task
per job in submission order; tasks complete in an arbitrary order
(`completionOrder`); the response list reads each task's result back in
submission order (`task.result()` is a lookup of the task's index in the
table of completed tasks). -/
def gather_responses (resolveOracle : String → Except String String)
    (dns : String → List String) (fetchHtml : String → Except String String)
    (opiferum : List String) (jobs : List (Nat × String))
    (completionOrder : List Nat) : List (Option RequestData) :=
  let result := fun i =>
    (request resolveOracle dns fetchHtml opiferum (jobs.getD i (0, ""))).data
  let table := taskTable result completionOrder
  (List.range jobs.length).map fun i => table.lookup i

/-- Progress-callback totals of one `gather_responses` batch:
`callback(total=n)` announcements (line 145, issued once with `n = len(jobs)`)
and the summed `advance_secondary` / `advance` increments over all jobs. -/
structure ProgressTotals where
  totalAnnouncements : List Nat
  secondarySum : Nat
  advanceSum : Nat
deriving DecidableEq

/-- Progress totals of a `gather_responses` batch, from line 145
(`callback(total=n)`) and the per-job counts of `_request`. -/
def gatherProgress (resolveOracle : String → Except String String)
    (dns : String → List String) (fetchHtml : String → Except String String)
    (opiferum : List String) (jobs : List (Nat × String)) : ProgressTotals :=
  { totalAnnouncements := [jobs.length]
    secondarySum :=
      (jobs.map fun j => (request resolveOracle dns fetchHtml opiferum j).secondaryCalls).sum
    advanceSum :=
      (jobs.map fun j => (request resolveOracle dns fetchHtml opiferum j).advanceCalls).sum }

/-- Decision of `_request` line 118: does the job return early as external to
opiferum?  True when a final URL was resolved and none of its IP addresses is
in the opiferum set. -/
def externalEarlyReturn (resolveOracle : String → Except String String)
    (dns : String → List String) (opiferum : List String)
    (job : Nat × String) : Bool :=
  match (resolve_url resolveOracle job.2).1.final_url with
  | none => false
  | some finalUrl => (dns finalUrl).all fun ip => decide (ip ∉ opiferum)

/-! ## The extraction stage (`async_ai_extraction`)

The completion call (`completion_with_backoff` plus the parsing and
validation of its output into the `Extracts` model) is abstracted as an
oracle from the page text to either the cleaned extract data or the raised
exception. -/

/-- Exceptions distinguished by `async_ai_extraction`: the four recognized
classes caught in `_extract_data_with_semaphore` plus everything else. -/
inductive ExtractionException where
  | rateLimitError
  | apiError
  | timeoutError
  | validationError
deriving DecidableEq

/-- Page dictionary as the extraction stage sees it; `ai_extracts = none`
models the key being absent. -/
structure Page where
  text : String
  final_url : String
  ai_extracts : Option String
deriving DecidableEq

/-- Result of one `_extract_data_with_semaphore` call together with how many
times `callback(advance_secondary=1)` and `callback(advance=1)` ran. -/
structure ExtractOutcome where
  page : Page
  secondaryCalls : Nat
  advanceCalls : Nat
deriving DecidableEq

/-- Embedding of `async_ai_extraction._extract_data` (lines 65-120) under
`_extract_data_with_semaphore` (lines 123-133): on success the page dict
gains the `ai_extracts` key and `callback(advance=1)` runs; a recognized
exception is caught and the page returned unchanged, with no `advance`
increment (the exception is raised before the mutation). -/
def extract_data_with_semaphore
    (oracle : String → Except ExtractionException String) (page : Page) :
    ExtractOutcome :=
  match oracle page.text with
  | .ok extracts =>
    { page := { page with ai_extracts := some extracts }
      secondaryCalls := 1, advanceCalls := 1 }
  | .error _ => { page := page, secondaryCalls := 1, advanceCalls := 0 }

/-- Embedding of `async_ai_extraction.gather_extracts` (lines 136-165), with
the same task-table reading of `task.result()` as `gather_responses`. -/
def gather_extracts (oracle : String → Except ExtractionException String)
    (pages : List Page) (completionOrder : List Nat) : List (Option Page) :=
  let result := fun i =>
    (extract_data_with_semaphore oracle (pages.getD i ⟨"", "", none⟩)).page
  let table := taskTable result completionOrder
  (List.range pages.length).map fun i => table.lookup i

/-! ## The screenshot stage (`async_screenshots`)

The browser interaction of `_capture_page` is abstracted as an oracle from
the page URL to either success or the raised playwright `Error`. -/

/-- Page dictionary as the screenshot stage sees it; `screenshot_error = none`
models the key being absent. -/
structure ScreenshotPage where
  site_id : Nat
  url : String
  screenshot_error : Option String
deriving DecidableEq

/-- Embedding of `async_screenshots._capture_page_with_semaphore` (lines
46-54): on success the page data is returned as is; a playwright `Error` is
caught and recorded on the page dict under `screenshot_error`. -/
def capture_page_with_semaphore (oracle : String → Except String Unit)
    (pageData : ScreenshotPage) : ScreenshotPage :=
  match oracle pageData.url with
  | .ok _ => pageData
  | .error e => { pageData with screenshot_error := some e }

end Opicrawler

namespace Opicrawler

/-- Looking a task index up in the completed-task table yields that task's
result, for any completion order containing the index. -/
theorem lookup_taskTable (f : Nat → α) :
    ∀ (order : List Nat) (i : Nat), i ∈ order →
      (taskTable f order).lookup i = some (f i)
  | [], i, h => absurd h (List.not_mem_nil i)
  | j :: rest, i, h => by
    simp only [taskTable, List.map, List.lookup]
    by_cases hij : i = j
    · subst hij; simp
    · have hb : (i == j) = false := beq_false_of_ne hij
      rw [hb]
      exact lookup_taskTable f rest i
        ((List.mem_cons.mp h).resolve_left hij)

/-- C4: the transport-fetch error classifier returns `true` exactly for
connection/timeout errors and HTTP responses with status at least 500, and
`false` for certificate verification failures and non-5xx HTTP errors; in
particular a 503 is retryable while a 404 and a certificate failure are not. -/
theorem error_to_retry_characterization :
    (∀ exc : FetchException, error_to_retry exc = true ↔
      (exc = .otherClientError ∨ exc = .timeoutError ∨
       ∃ s, exc = .clientResponseError s ∧ 500 ≤ s))
    ∧ error_to_retry (.clientResponseError 503) = true
    ∧ error_to_retry (.clientResponseError 404) = false
    ∧ error_to_retry .clientConnectorCertificateError = false := by
  refine ⟨fun exc => ?_, by decide, by decide, by decide⟩
  cases exc with
  | clientResponseError s =>
    simp [error_to_retry, FetchException.responseStatus]
  | clientConnectorCertificateError => simp [error_to_retry]; decide
  | otherClientError => simp [error_to_retry]; decide
  | timeoutError => simp [error_to_retry]; decide
  | otherException => simp [error_to_retry]; decide

end Opicrawler

namespace Opicrawler

/-- C7: URL resolution tries https then http; the first success returns the
final URL without trying further schemes; each failure is recorded and the
next scheme tried; when both fail the result carries both accumulated errors.
In particular, https failing and http succeeding yields the http final URL
with exactly the one https error recorded. -/
theorem resolve_url_scheme_fallback (oracle : String → Except String String)
    (domain : String) :
    (∀ f, oracle ("https://" ++ domain) = .ok f →
      resolve_url oracle domain =
        ({ final_url := some f, start_url := some ("https://" ++ domain),
           url_resolution_errors := [] }, ["https://" ++ domain]))
    ∧ (∀ e f, oracle ("https://" ++ domain) = .error e →
        oracle ("http://" ++ domain) = .ok f →
        resolve_url oracle domain =
          ({ final_url := some f, start_url := some ("http://" ++ domain),
             url_resolution_errors := [⟨"https://" ++ domain, e⟩] },
           ["https://" ++ domain, "http://" ++ domain]))
    ∧ (∀ e₁ e₂, oracle ("https://" ++ domain) = .error e₁ →
        oracle ("http://" ++ domain) = .error e₂ →
        resolve_url oracle domain =
          ({ final_url := none, start_url := none,
             url_resolution_errors :=
               [⟨"https://" ++ domain, e₁⟩, ⟨"http://" ++ domain, e₂⟩] },
           ["https://" ++ domain, "http://" ++ domain])) := by
  refine ⟨fun f h1 => ?_, fun e f h1 h2 => ?_, fun e₁ e₂ h1 h2 => ?_⟩
  · simp [resolve_url, resolveUrlGo, h1]
  · simp [resolve_url, resolveUrlGo, h1, h2]
  · simp [resolve_url, resolveUrlGo, h1, h2]

end Opicrawler

namespace Opicrawler

/-- C10: a fetch-stage job whose resolved IP addresses do not intersect the
opiferum set is marked `external_to_opiferum = true` and returns early with
neither an `html` nor an `html_fetch_error` key; the HTML fetch is attempted
exactly for jobs whose final URL resolved and whose IP addresses intersect
that set. -/
theorem request_external_skips_fetch (resolveOracle : String → Except String String)
    (dns : String → List String) (fetchHtml : String → Except String String)
    (opiferum : List String) (job : Nat × String) :
    (∀ finalUrl, (resolve_url resolveOracle job.2).1.final_url = some finalUrl →
      (dns finalUrl).all (fun ip => decide (ip ∉ opiferum)) = true →
        (request resolveOracle dns fetchHtml opiferum job).data.external_to_opiferum
            = some true ∧
        (request resolveOracle dns fetchHtml opiferum job).data.html = none ∧
        (request resolveOracle dns fetchHtml opiferum job).data.html_fetch_error = none)
    ∧ (((request resolveOracle dns fetchHtml opiferum job).data.html ≠ none ∨
        (request resolveOracle dns fetchHtml opiferum job).data.html_fetch_error ≠ none)
       ↔ ∃ finalUrl,
           (resolve_url resolveOracle job.2).1.final_url = some finalUrl ∧
           (dns finalUrl).all (fun ip => decide (ip ∉ opiferum)) = false) := by
  constructor
  · intro finalUrl hfu hall
    dsimp only [request]
    rw [hfu]
    dsimp only
    rw [hall]
    simp
  · cases hfu : (resolve_url resolveOracle job.2).1.final_url with
    | none =>
      dsimp only [request]
      rw [hfu]
      dsimp only
      constructor
      · rintro (h | h) <;> simp at h
      · rintro ⟨f, hf, _⟩; cases hf
    | some finalUrl =>
      dsimp only [request]
      rw [hfu]
      dsimp only
      cases hall : (dns finalUrl).all (fun ip => decide (ip ∉ opiferum)) with
      | true =>
        simp only [if_pos rfl]
        constructor
        · rintro (h | h) <;> simp at h
        · rintro ⟨f, hf, hfalse⟩
          cases hf
          rw [hall] at hfalse; cases hfalse
      | false =>
        simp only [Bool.false_eq_true, if_false]
        cases hfetch : fetchHtml finalUrl with
        | ok text =>
          dsimp only
          exact ⟨fun _ => ⟨finalUrl, rfl, hall⟩, fun _ => Or.inl (by simp)⟩
        | error e =>
          dsimp only
          exact ⟨fun _ => ⟨finalUrl, rfl, hall⟩, fun _ => Or.inr (by simp)⟩

end Opicrawler

namespace Opicrawler

/-- Progress totals of a `gather_extracts` batch, from line 147
(`callback(total=n)`) and the per-page counts of
`_extract_data_with_semaphore`. -/
def gatherExtractProgress (oracle : String → Except ExtractionException String)
    (pages : List Page) : ProgressTotals :=
  { totalAnnouncements := [pages.length]
    secondarySum :=
      (pages.map fun p => (extract_data_with_semaphore oracle p).secondaryCalls).sum
    advanceSum :=
      (pages.map fun p => (extract_data_with_semaphore oracle p).advanceCalls).sum }

/-- Summing 1 over a list counts its length. -/
theorem sum_map_one (l : List α) : (l.map fun _ => (1 : Nat)).sum = l.length := by
  induction l with
  | nil => rfl
  | cons a t ih => simp [ih, Nat.add_comm]

/-- Summing an indicator over a list counts the elements where it is 1. -/
theorem sum_map_indicator (p : α → Bool) (l : List α) :
    (l.map fun a => if p a then (0 : Nat) else 1).sum
      = (l.filter fun a => !p a).length := by
  induction l with
  | nil => rfl
  | cons a t ih =>
    cases hp : p a <;> simp [List.filter_cons, hp, ih, Nat.add_comm]

/-- The `_request` body runs `callback(advance_secondary=1)` exactly once. -/
theorem request_secondaryCalls (resolveOracle : String → Except String String)
    (dns : String → List String) (fetchHtml : String → Except String String)
    (opiferum : List String) (job : Nat × String) :
    (request resolveOracle dns fetchHtml opiferum job).secondaryCalls = 1 := by
  dsimp only [request]
  cases hfu : (resolve_url resolveOracle job.2).1.final_url with
  | none => rfl
  | some finalUrl =>
    dsimp only
    cases hall : (dns finalUrl).all (fun ip => decide (ip ∉ opiferum)) with
    | true => simp
    | false =>
      simp only [Bool.false_eq_true, if_false]
      cases fetchHtml finalUrl <;> rfl

/-- The `_request` body runs `callback(advance=1)` exactly once, except on the
external-to-opiferum early return, where it does not run at all. -/
theorem request_advanceCalls (resolveOracle : String → Except String String)
    (dns : String → List String) (fetchHtml : String → Except String String)
    (opiferum : List String) (job : Nat × String) :
    (request resolveOracle dns fetchHtml opiferum job).advanceCalls
      = if externalEarlyReturn resolveOracle dns opiferum job then 0 else 1 := by
  dsimp only [request, externalEarlyReturn]
  cases hfu : (resolve_url resolveOracle job.2).1.final_url with
  | none => rfl
  | some finalUrl =>
    dsimp only
    cases hall : (dns finalUrl).all (fun ip => decide (ip ∉ opiferum)) with
    | true => simp
    | false =>
      simp only [Bool.false_eq_true, if_false]
      cases fetchHtml finalUrl <;> rfl

end Opicrawler

namespace Opicrawler

/-- Summing a positive indicator over a list counts the elements where it is
1. -/
theorem sum_map_indicator_pos (q : α → Bool) (l : List α) :
    (l.map fun a => if q a then (1 : Nat) else 0).sum
      = (l.filter q).length := by
  induction l with
  | nil => rfl
  | cons a t ih =>
    cases hq : q a <;> simp [List.filter_cons, hq, ih, Nat.add_comm]

/-- The `_extract_data` body runs `callback(advance_secondary=1)` exactly
once, also when the completion call raises. -/
theorem extract_secondaryCalls (oracle : String → Except ExtractionException String)
    (page : Page) :
    (extract_data_with_semaphore oracle page).secondaryCalls = 1 := by
  cases h : oracle page.text <;> simp [extract_data_with_semaphore, h]

/-- The `_extract_data` body runs `callback(advance=1)` exactly once on
success and not at all when the completion call raises a recognized
exception. -/
theorem extract_advanceCalls (oracle : String → Except ExtractionException String)
    (page : Page) :
    (extract_data_with_semaphore oracle page).advanceCalls
      = if (oracle page.text).toOption.isSome then 1 else 0 := by
  cases h : oracle page.text <;>
    simp [extract_data_with_semaphore, h, Except.toOption]

/-- C9 (amended): in every batch, `total = len(jobs)` is announced exactly
once at batch start and the started counter (`advance_secondary`) is
incremented exactly once per job on admission; the completed counter
(`advance`) is incremented exactly once per job on settlement only for jobs
that run their body to completion — a fetch-stage job that returns early as
external to opiferum, and an extraction-stage job whose completion call
raises a recognized exception, settle without incrementing it, so the
completed-counter total is the number of such fully-completing jobs, not the
number of submitted jobs. -/
theorem progress_counter_totals (resolveOracle : String → Except String String)
    (dns : String → List String) (fetchHtml : String → Except String String)
    (opiferum : List String) (jobs : List (Nat × String))
    (oracle : String → Except ExtractionException String) (pages : List Page) :
    gatherProgress resolveOracle dns fetchHtml opiferum jobs =
      { totalAnnouncements := [jobs.length]
        secondarySum := jobs.length
        advanceSum :=
          (jobs.filter fun j =>
            !(externalEarlyReturn resolveOracle dns opiferum j)).length }
    ∧ gatherExtractProgress oracle pages =
      { totalAnnouncements := [pages.length]
        secondarySum := pages.length
        advanceSum :=
          (pages.filter fun p => (oracle p.text).toOption.isSome).length }
    ∧ (∀ job, (request resolveOracle dns fetchHtml opiferum job).advanceCalls
        = if externalEarlyReturn resolveOracle dns opiferum job then 0 else 1) := by
  refine ⟨?_, ?_, fun job => request_advanceCalls _ _ _ _ _⟩
  · simp only [gatherProgress, request_secondaryCalls, request_advanceCalls,
      sum_map_one, sum_map_indicator]
  · simp only [gatherExtractProgress, extract_secondaryCalls,
      extract_advanceCalls, sum_map_one, sum_map_indicator_pos]

/-- C9 counterexample: a single-job batch whose final URL resolves to IP
addresses disjoint from the opiferum set settles with zero
completed-counter (`advance`) increments — not one per job as claimed. -/
theorem progress_counter_counterexample :
    (gatherProgress (fun _ => .ok "https://a.example/") (fun _ => ["10.0.0.1"])
        (fun _ => .ok "<html>") ["203.0.113.5"] [(7, "a.example")]).advanceSum = 0
    ∧ (gatherProgress (fun _ => .ok "https://a.example/") (fun _ => ["10.0.0.1"])
        (fun _ => .ok "<html>") ["203.0.113.5"] [(7, "a.example")]).advanceSum
      ≠ [((7 : Nat), "a.example")].length := by
  constructor <;> decide

end Opicrawler

namespace Opicrawler

/-- C5: a batch run over any job sequence returns a list of exactly the same
length whose entry at index `i` is the result of job `i`, for every
completion order of the tasks; a job failing with a recognized error is never
dropped: in the fetch stage its entry carries `html_fetch_error` (and no
`html`), and in the extraction stage the failed page comes back as an entry
without `ai_extracts` while successful entries carry `ai_extracts`. -/
theorem gather_ordered_results (resolveOracle : String → Except String String)
    (dns : String → List String) (fetchHtml : String → Except String String)
    (opiferum : List String) (jobs : List (Nat × String))
    (oracle : String → Except ExtractionException String) (pages : List Page)
    (order₁ order₂ : List Nat)
    (h₁ : order₁.Perm (List.range jobs.length))
    (h₂ : order₂.Perm (List.range pages.length)) :
    (gather_responses resolveOracle dns fetchHtml opiferum jobs order₁).length
        = jobs.length
    ∧ (∀ i, i < jobs.length →
        (gather_responses resolveOracle dns fetchHtml opiferum jobs order₁)[i]?
          = some (some
              (request resolveOracle dns fetchHtml opiferum
                (jobs.getD i (0, ""))).data))
    ∧ (gather_extracts oracle pages order₂).length = pages.length
    ∧ (∀ i, i < pages.length →
        (gather_extracts oracle pages order₂)[i]?
          = some (some
              (extract_data_with_semaphore oracle
                (pages.getD i ⟨"", "", none⟩)).page))
    ∧ (∀ job finalUrl e,
        (resolve_url resolveOracle job.2).1.final_url = some finalUrl →
        (dns finalUrl).all (fun ip => decide (ip ∉ opiferum)) = false →
        fetchHtml finalUrl = .error e →
        (request resolveOracle dns fetchHtml opiferum job).data.html_fetch_error
            = some e ∧
        (request resolveOracle dns fetchHtml opiferum job).data.html = none)
    ∧ (∀ page err, oracle page.text = .error err →
        (extract_data_with_semaphore oracle page).page = page)
    ∧ (∀ page x, oracle page.text = .ok x →
        (extract_data_with_semaphore oracle page).page.ai_extracts = some x) := by
  refine ⟨?_, fun i hi => ?_, ?_, fun i hi => ?_,
    fun job finalUrl e hfu hall hfetch => ?_, fun page err herr => ?_,
    fun page x hok => ?_⟩
  · simp [gather_responses]
  · have hmem : i ∈ order₁ := h₁.mem_iff.mpr (List.mem_range.mpr hi)
    simp only [gather_responses, List.getElem?_map, List.getElem?_range hi,
      Option.map_some']
    rw [lookup_taskTable _ _ _ hmem]
  · simp [gather_extracts]
  · have hmem : i ∈ order₂ := h₂.mem_iff.mpr (List.mem_range.mpr hi)
    simp only [gather_extracts, List.getElem?_map, List.getElem?_range hi,
      Option.map_some']
    rw [lookup_taskTable _ _ _ hmem]
  · dsimp only [request]
    rw [hfu]
    dsimp only
    rw [hall]
    simp [hfetch]
  · simp [extract_data_with_semaphore, herr]
  · simp [extract_data_with_semaphore, hok]

/-- C5 witness: a two-job fetch batch completing in reverse order and a
one-page extraction batch, at concrete oracles. -/
theorem gather_ordered_results_witness :
    (gather_responses (fun _ => .ok "https://a.example/") (fun _ => ["10.0.0.1"])
        (fun _ => .error "boom") ["10.0.0.1"] [(1, "a.example"), (2, "b.example")]
        [1, 0]).length = [(1, "a.example"), (2, "b.example")].length
    ∧ (∀ i, i < [((1 : Nat), "a.example"), (2, "b.example")].length →
        (gather_responses (fun _ => .ok "https://a.example/") (fun _ => ["10.0.0.1"])
          (fun _ => .error "boom") ["10.0.0.1"] [(1, "a.example"), (2, "b.example")]
          [1, 0])[i]?
          = some (some
              (request (fun _ => .ok "https://a.example/") (fun _ => ["10.0.0.1"])
                (fun _ => .error "boom") ["10.0.0.1"]
                ([(1, "a.example"), (2, "b.example")].getD i (0, ""))).data))
    ∧ (gather_extracts (fun _ => .error .apiError) [⟨"t", "u", none⟩] [0]).length
        = [(⟨"t", "u", none⟩ : Page)].length
    ∧ (∀ i, i < [(⟨"t", "u", none⟩ : Page)].length →
        (gather_extracts (fun _ => .error .apiError) [⟨"t", "u", none⟩] [0])[i]?
          = some (some
              (extract_data_with_semaphore (fun _ => .error .apiError)
                ([(⟨"t", "u", none⟩ : Page)].getD i ⟨"", "", none⟩)).page))
    ∧ (∀ (job : Nat × String) finalUrl e,
        (resolve_url (fun _ => .ok "https://a.example/") job.2).1.final_url
            = some finalUrl →
        (((fun (_ : String) => ["10.0.0.1"]) finalUrl).all
            (fun ip => decide (ip ∉ (["10.0.0.1"] : List String)))) = false →
        (fun (_ : String) => (.error "boom" : Except String String)) finalUrl
            = .error e →
        (request (fun _ => .ok "https://a.example/") (fun _ => ["10.0.0.1"])
            (fun _ => .error "boom") ["10.0.0.1"] job).data.html_fetch_error
            = some e ∧
        (request (fun _ => .ok "https://a.example/") (fun _ => ["10.0.0.1"])
            (fun _ => .error "boom") ["10.0.0.1"] job).data.html = none)
    ∧ (∀ (page : Page) err,
        (fun (_ : String) => (.error .apiError : Except ExtractionException String))
            page.text = .error err →
        (extract_data_with_semaphore (fun _ => .error .apiError) page).page = page)
    ∧ (∀ (page : Page) x,
        (fun (_ : String) => (.error .apiError : Except ExtractionException String))
            page.text = .ok x →
        (extract_data_with_semaphore (fun _ => .error .apiError) page).page.ai_extracts
            = some x) :=
  gather_ordered_results (fun _ => .ok "https://a.example/") (fun _ => ["10.0.0.1"])
    (fun _ => .error "boom") ["10.0.0.1"] [(1, "a.example"), (2, "b.example")]
    (fun _ => .error .apiError) [⟨"t", "u", none⟩] [1, 0] [0]
    (by decide) (by decide)

end Opicrawler

namespace Opicrawler

/-- C8 counterexample: the extraction stage mutates the caller's page dict by
adding `ai_extracts` on success, and the screenshot stage mutates the
caller's page dict by adding `screenshot_error` on a captured failure — after
the call the caller-owned job input differs from its value at submission. -/
theorem job_mutation_counterexample :
    (extract_data_with_semaphore (fun _ => .ok "extracted")
        ⟨"text", "https://a.example/", none⟩).page
      ≠ (⟨"text", "https://a.example/", none⟩ : Page)
    ∧ capture_page_with_semaphore (fun _ => .error "boom")
        ⟨5, "https://a.example/", none⟩
      ≠ (⟨5, "https://a.example/", none⟩ : ScreenshotPage) := by
  constructor <;> decide

/-- C8 (amended): the fetch stage only reads its job input; the extraction
and screenshot stages mutate the caller's page dict in place, but only by
adding a result key — `ai_extracts` on extraction success, `screenshot_error`
on screenshot failure — and leave every pre-existing field of the job
unchanged (and the job untouched when no result key is added). -/
theorem stage_job_frame (oracle : String → Except ExtractionException String)
    (shot : String → Except String Unit) (page : Page)
    (pageData : ScreenshotPage) :
    (extract_data_with_semaphore oracle page).page.text = page.text
    ∧ (extract_data_with_semaphore oracle page).page.final_url = page.final_url
    ∧ (∀ err, oracle page.text = .error err →
        (extract_data_with_semaphore oracle page).page = page)
    ∧ (∀ x, oracle page.text = .ok x →
        (extract_data_with_semaphore oracle page).page.ai_extracts = some x)
    ∧ (capture_page_with_semaphore shot pageData).site_id = pageData.site_id
    ∧ (capture_page_with_semaphore shot pageData).url = pageData.url
    ∧ (∀ u, shot pageData.url = .ok u →
        capture_page_with_semaphore shot pageData = pageData)
    ∧ (∀ e, shot pageData.url = .error e →
        (capture_page_with_semaphore shot pageData).screenshot_error = some e) := by
  refine ⟨?_, ?_, fun err herr => ?_, fun x hok => ?_, ?_, ?_,
    fun u hu => ?_, fun e he => ?_⟩
  · cases hx : oracle page.text <;> simp [extract_data_with_semaphore, hx]
  · cases hx : oracle page.text <;> simp [extract_data_with_semaphore, hx]
  · simp [extract_data_with_semaphore, herr]
  · simp [extract_data_with_semaphore, hok]
  · cases hs : shot pageData.url <;> simp [capture_page_with_semaphore, hs]
  · cases hs : shot pageData.url <;> simp [capture_page_with_semaphore, hs]
  · simp [capture_page_with_semaphore, hu]
  · simp [capture_page_with_semaphore, he]

/-! ## Close semantics (`async_memoize.CoalescingCache.close`)

Attribute state of one `CoalescingCache` instance: whether the `cache` and
`lock_map` attributes are still present (Python `del` removes the attribute;
a second `del` raises `AttributeError`) and whether the cleanup task has been
cancelled (`Task.cancel()` may be called repeatedly). -/

/-- Attribute state of a `CoalescingCache` instance relevant to `close`. -/
structure CoalescingCacheObject where
  autoclean : Bool
  cleanupCancelled : Bool
  cacheAttrPresent : Bool
  lockMapAttrPresent : Bool
deriving DecidableEq

/-- Embedding of `CoalescingCache.close` (lines 101-106): cancel the cleanup
task when autoclean is set, then `del self.cache` and `del self.lock_map`;
deleting an attribute that was already deleted raises `AttributeError`. -/
def close (o : CoalescingCacheObject) : Except String CoalescingCacheObject :=
  let o₁ := if o.autoclean then { o with cleanupCancelled := true } else o
  if o₁.cacheAttrPresent then
    let o₂ := { o₁ with cacheAttrPresent := false }
    if o₂.lockMapAttrPresent then .ok { o₂ with lockMapAttrPresent := false }
    else .error "AttributeError: lock_map"
  else .error "AttributeError: cache"

end Opicrawler

namespace Opicrawler

/-- C6 counterexample: on a freshly constructed autoclean cache, the first
`close()` succeeds (task cancelled, attributes released) but the second
`close()` raises `AttributeError` — calling `close()` twice does raise. -/
theorem close_twice_counterexample :
    close ⟨true, false, true, true⟩ = .ok ⟨true, true, false, false⟩
    ∧ close ⟨true, true, false, false⟩ = .error "AttributeError: cache" :=
  ⟨rfl, rfl⟩

/-- C6 (amended): after `close()` on an autoclean cache whose attributes are
present, the background expiry task is cancelled and the cache and lock-map
attributes are released; a second `close()` on the same cache raises
`AttributeError` (close is not idempotent). -/
theorem close_semantics (o : CoalescingCacheObject)
    (hc : o.cacheAttrPresent = true) (hl : o.lockMapAttrPresent = true)
    (ha : o.autoclean = true) :
    close o = .ok { autoclean := o.autoclean, cleanupCancelled := true,
                    cacheAttrPresent := false, lockMapAttrPresent := false }
    ∧ ∀ o', close o = .ok o' → ∃ msg, close o' = .error msg := by
  obtain ⟨a, t, c, l⟩ := o
  cases hc; cases hl; cases ha
  refine ⟨rfl, fun o' ho' => ?_⟩
  cases ho'
  exact ⟨"AttributeError: cache", rfl⟩

/-- C6 witness: the amended close semantics at a fresh autoclean instance. -/
theorem close_semantics_witness :
    close ⟨true, false, true, true⟩
        = .ok { autoclean := true, cleanupCancelled := true,
                cacheAttrPresent := false, lockMapAttrPresent := false }
    ∧ ∀ o', close ⟨true, false, true, true⟩ = .ok o' →
        ∃ msg, close o' = .error msg :=
  close_semantics ⟨true, false, true, true⟩ rfl rfl rfl

end Opicrawler

namespace Opicrawler

/-! ## The coalescing LRU/TTL cache (`async_memoize.CoalescingCache`)

Sequential model of the wrapper body (lines 31-60) and of one iteration of
the periodic cleanup loop (lines 76-87).  The per-key lock serializes all
callers, so one call of the wrapped function is one application of `wrapper`;
`time.time()` is passed explicitly (`now` at the TTL check of line 47,
`storeTime` at the store of line 59).  The `OrderedDict` cache is a list of
`(key, value, timestamp)` entries from least to most recently used, and the
`defaultdict` lock map is the list of keys holding a lock. -/

/-- Construction parameters of a `CoalescingCache` (lines 16-19). -/
structure CacheConfig where
  max_size : Option Nat
  ttl : Option Nat

/-- Mutable state of a `CoalescingCache`: the ordered cache and the keys of
the lock map. -/
structure CacheState (κ ν : Type) where
  cache : List (κ × ν × Nat)
  lockKeys : List κ
deriving DecidableEq

/-- Reading `self.lock_map[key]` on a `defaultdict` creates the lock when it
is absent (line 43). -/
def ensureLock [DecidableEq κ] (s : CacheState κ ν) (k : κ) : CacheState κ ν :=
  if k ∈ s.lockKeys then s else { s with lockKeys := s.lockKeys ++ [k] }

/-- Key lookup in the ordered cache (`key in self.cache` / `self.cache[key]`,
lines 45-46). -/
def cacheLookup [DecidableEq κ] : List (κ × ν × Nat) → κ → Option (ν × Nat)
  | [], _ => none
  | (k₁, v, ts) :: rest, k => if k = k₁ then some (v, ts) else cacheLookup rest k

/-- Removal of every entry of a key (`del self.cache[key]` semantics). -/
def removeKey [DecidableEq κ] (c : List (κ × ν × Nat)) (k : κ) :
    List (κ × ν × Nat) :=
  c.filter fun e => decide (e.1 ≠ k)

/-- Embedding of `OrderedDict.move_to_end(key)` (line 48): the entry of the
key moves to the most-recently-used end, keeping its value and timestamp. -/
def moveToEnd [DecidableEq κ] (c : List (κ × ν × Nat)) (k : κ) :
    List (κ × ν × Nat) :=
  match cacheLookup c k with
  | none => c
  | some (v, ts) => removeKey c k ++ [(k, v, ts)]

/-- Embedding of `self.cache[key] = (result, time.time())` (line 59): an
existing key keeps its `OrderedDict` position; a new key appends at the
most-recently-used end. -/
def cacheAssign [DecidableEq κ] : List (κ × ν × Nat) → κ → ν → Nat →
    List (κ × ν × Nat)
  | [], k, v, ts => [(k, v, ts)]
  | (k₁, v₁, ts₁) :: rest, k, v, ts =>
    if k = k₁ then (k, v, ts) :: rest else (k₁, v₁, ts₁) :: cacheAssign rest k v ts

/-- Validity check on a cached entry (line 47):
`self.ttl is None or time.time() <= timestamp + self.ttl`. -/
def ttlCheck (ttl : Option Nat) (ts now : Nat) : Bool :=
  match ttl with
  | none => true
  | some t => decide (now ≤ ts + t)

/-- Miss path of the wrapper (lines 51-60): possibly purge the least recently
used entry (the front of the ordered cache) and drop its lock, then call the
wrapped function and store its result with the current timestamp. -/
def wrapperMiss [DecidableEq κ] (cfg : CacheConfig) (s : CacheState κ ν)
    (k : κ) (result : ν) (storeTime : Nat) : ν × CacheState κ ν :=
  let purged :=
    match cfg.max_size with
    | none => s
    | some m =>
      if s.cache.length ≥ m then
        match s.cache with
        | [] => s
        | (lruKey, _, _) :: rest =>
          { cache := rest
            lockKeys := s.lockKeys.filter fun x => decide (x ≠ lruKey) }
      else s
  (result, { purged with cache := cacheAssign purged.cache k result storeTime })

/-- Embedding of the wrapper body under the per-key lock (lines 43-60): on a
cached and still-valid entry, mark it most recently used and return its
value; otherwise run the miss path.  `result` is the value the wrapped
function would return if called. -/
def wrapper [DecidableEq κ] (cfg : CacheConfig) (s : CacheState κ ν) (k : κ)
    (now : Nat) (result : ν) (storeTime : Nat) : ν × CacheState κ ν :=
  let s₁ := ensureLock s k
  match cacheLookup s₁.cache k with
  | some (v, ts) =>
    if ttlCheck cfg.ttl ts now then (v, { s₁ with cache := moveToEnd s₁.cache k })
    else wrapperMiss cfg s₁ k result storeTime
  | none => wrapperMiss cfg s₁ k result storeTime

/-- Embedding of one cleanup sweep (`_cleanup_periodically` body, lines
77-87): every entry whose timestamp is more than `ttl` old is deleted from
the cache and its lock dropped from the lock map. -/
def sweep [DecidableEq κ] (t : Nat) (s : CacheState κ ν) (now : Nat) :
    CacheState κ ν :=
  let expiredKeys := (s.cache.filter fun e => decide (now > e.2.2 + t)).map
    fun e => e.1
  { cache := s.cache.filter fun e => decide (¬ now > e.2.2 + t)
    lockKeys := s.lockKeys.filter fun x => decide (x ∉ expiredKeys) }

end Opicrawler

namespace Opicrawler

variable {κ ν : Type} [DecidableEq κ]

/-- Lookup distributes over appending cache segments. -/
theorem cacheLookup_append (l₁ l₂ : List (κ × ν × Nat)) (k : κ) :
    cacheLookup (l₁ ++ l₂) k =
      match cacheLookup l₁ k with
      | some p => some p
      | none => cacheLookup l₂ k := by
  induction l₁ with
  | nil => rfl
  | cons e rest ih =>
    obtain ⟨k₁, v, ts⟩ := e
    by_cases hk : k = k₁ <;> simp [cacheLookup, hk, ih]

/-- Lookup misses when no entry has the key. -/
theorem cacheLookup_eq_none (l : List (κ × ν × Nat)) (k : κ)
    (h : ∀ e ∈ l, e.1 ≠ k) : cacheLookup l k = none := by
  induction l with
  | nil => rfl
  | cons e rest ih =>
    obtain ⟨k₁, v, ts⟩ := e
    have hne : k₁ ≠ k := h (k₁, v, ts) (List.mem_cons_self _ _)
    simp only [cacheLookup]
    rw [if_neg fun hk => hne hk.symm]
    exact ih fun e he => h e (List.mem_cons_of_mem _ he)

/-- Entries surviving `removeKey` have a different key. -/
theorem mem_removeKey_ne (c : List (κ × ν × Nat)) (k : κ) :
    ∀ e ∈ removeKey c k, e.1 ≠ k := by
  intro e he
  have := List.of_mem_filter he
  simpa using this

/-- The `defaultdict` access leaves the cache untouched. -/
theorem ensureLock_cache (s : CacheState κ ν) (k : κ) :
    (ensureLock s k).cache = s.cache := by
  unfold ensureLock
  split <;> rfl

/-- The `defaultdict` access guarantees the key holds a lock. -/
theorem mem_ensureLock (s : CacheState κ ν) (k : κ) :
    k ∈ (ensureLock s k).lockKeys := by
  unfold ensureLock
  split
  · assumption
  · simp

/-- Behavior of one cleanup sweep on a cache whose key `k` entry carries
timestamp `ts` at the most-recently-used end: the entry and its lock survive
a sweep within `ttl` of `ts` and are removed by a later sweep. -/
theorem sweep_hit_state (t : Nat) (cRest : List (κ × ν × Nat)) (locks : List κ)
    (k : κ) (v : ν) (ts : Nat) (hrest : ∀ e ∈ cRest, e.1 ≠ k)
    (hlock : k ∈ locks) (now₂ : Nat) :
    (now₂ ≤ ts + t →
      cacheLookup (sweep t ⟨cRest ++ [(k, v, ts)], locks⟩ now₂).cache k
          = some (v, ts)
      ∧ k ∈ (sweep t ⟨cRest ++ [(k, v, ts)], locks⟩ now₂).lockKeys)
    ∧ (ts + t < now₂ →
      cacheLookup (sweep t ⟨cRest ++ [(k, v, ts)], locks⟩ now₂).cache k = none
      ∧ k ∉ (sweep t ⟨cRest ++ [(k, v, ts)], locks⟩ now₂).lockKeys) := by
  constructor
  · intro hle
    have hnot : ¬ now₂ > ts + t := Nat.not_lt.mpr hle
    constructor
    · simp only [sweep, List.filter_append]
      rw [cacheLookup_append]
      rw [cacheLookup_eq_none _ k fun e he => hrest e (List.mem_of_mem_filter he)]
      simp [cacheLookup, hle]
    · simp only [sweep]
      rw [List.mem_filter]
      refine ⟨hlock, ?_⟩
      simp only [decide_eq_true_eq]
      intro hkmem
      obtain ⟨e, he, hek⟩ := List.mem_map.mp hkmem
      have hef := List.mem_filter.mp he
      rcases List.mem_append.mp hef.1 with h1 | h1
      · exact hrest e h1 hek
      · have he2 := hef.2
        have : e = (k, v, ts) := by simpa using h1
        subst this
        simp only [decide_eq_true_eq] at he2
        exact hnot he2
  · intro hgt
    constructor
    · simp only [sweep, List.filter_append]
      rw [cacheLookup_append]
      rw [cacheLookup_eq_none _ k fun e he => hrest e (List.mem_of_mem_filter he)]
      simp [cacheLookup, Nat.not_le.mpr hgt]
    · simp only [sweep]
      intro hmem
      have hf := (List.mem_filter.mp hmem).2
      simp only [decide_eq_true_eq] at hf
      apply hf
      refine List.mem_map.mpr ⟨(k, v, ts), ?_, rfl⟩
      refine List.mem_filter.mpr ⟨List.mem_append.mpr (Or.inr (by simp)), ?_⟩
      simpa using hgt

end Opicrawler

namespace Opicrawler

variable {κ ν : Type} [DecidableEq κ]

/-- Hit path of the wrapper: a cached, still-valid entry is returned and
moved to the most-recently-used end, value and timestamp untouched. -/
theorem wrapper_hit (cfg : CacheConfig) (s : CacheState κ ν) (k : κ) (v : ν)
    (ts now : Nat) (r : ν) (st : Nat)
    (hfound : cacheLookup s.cache k = some (v, ts))
    (hvalid : ttlCheck cfg.ttl ts now = true) :
    wrapper cfg s k now r st
      = (v, ⟨removeKey s.cache k ++ [(k, v, ts)], (ensureLock s k).lockKeys⟩) := by
  dsimp only [wrapper]
  rw [ensureLock_cache, hfound]
  dsimp only
  rw [if_pos hvalid]
  dsimp only [moveToEnd]
  rw [hfound]

/-- C2 (amended): on a cache hit, the entry's recency position is updated
(moved to the most-recently-used end) and its lock stays present, but its
timestamp is not refreshed — the stored timestamp remains the one of the last
computation.  Consequently the key survives a subsequent expiry sweep exactly
when the sweep falls within `ttl` of that computation timestamp, regardless
of the intervening hit; a later sweep removes the entry and its lock. -/
theorem cache_hit_refresh_semantics (ms : Option Nat) (t : Nat)
    (s : CacheState κ ν) (k : κ) (v : ν) (ts now : Nat) (r : ν) (st : Nat)
    (hfound : cacheLookup s.cache k = some (v, ts))
    (hvalid : now ≤ ts + t) :
    wrapper ⟨ms, some t⟩ s k now r st
        = (v, ⟨removeKey s.cache k ++ [(k, v, ts)], (ensureLock s k).lockKeys⟩)
    ∧ cacheLookup (removeKey s.cache k ++ [(k, v, ts)]) k = some (v, ts)
    ∧ k ∈ (ensureLock s k).lockKeys
    ∧ (∀ now₂, now₂ ≤ ts + t →
        cacheLookup (sweep t ⟨removeKey s.cache k ++ [(k, v, ts)],
            (ensureLock s k).lockKeys⟩ now₂).cache k = some (v, ts)
        ∧ k ∈ (sweep t ⟨removeKey s.cache k ++ [(k, v, ts)],
            (ensureLock s k).lockKeys⟩ now₂).lockKeys)
    ∧ (∀ now₂, ts + t < now₂ →
        cacheLookup (sweep t ⟨removeKey s.cache k ++ [(k, v, ts)],
            (ensureLock s k).lockKeys⟩ now₂).cache k = none
        ∧ k ∉ (sweep t ⟨removeKey s.cache k ++ [(k, v, ts)],
            (ensureLock s k).lockKeys⟩ now₂).lockKeys) := by
  have hsw := sweep_hit_state t (removeKey s.cache k)
    (ensureLock s k).lockKeys k v ts (mem_removeKey_ne s.cache k)
    (mem_ensureLock s k)
  refine ⟨wrapper_hit _ s k v ts now r st hfound (by simp [ttlCheck, hvalid]),
    ?_, mem_ensureLock s k, fun now₂ h => (hsw now₂).1 h,
    fun now₂ h => (hsw now₂).2 h⟩
  rw [cacheLookup_append]
  rw [cacheLookup_eq_none _ k (mem_removeKey_ne s.cache k)]
  simp [cacheLookup]

/-- C2 counterexample: with `ttl = 10`, a key computed at time 0 and hit at
time 9 keeps its stored timestamp 0 (it is not updated to 9), so the sweep at
time 11 — within `ttl` of the last access — removes the entry and its lock,
where the claim says the key and lock remain present. -/
theorem cache_hit_refresh_counterexample :
    cacheLookup (wrapper ⟨none, some 10⟩
        (wrapper (⟨none, some 10⟩ : CacheConfig)
          (⟨[], []⟩ : CacheState Nat Nat) 1 0 42 0).2 1 9 99 9).2.cache 1
      = some (42, 0)
    ∧ (11 : Nat) ≤ 9 + 10
    ∧ cacheLookup (sweep 10 (wrapper ⟨none, some 10⟩
        (wrapper (⟨none, some 10⟩ : CacheConfig)
          (⟨[], []⟩ : CacheState Nat Nat) 1 0 42 0).2 1 9 99 9).2 11).cache 1
      = none
    ∧ 1 ∉ (sweep 10 (wrapper ⟨none, some 10⟩
        (wrapper (⟨none, some 10⟩ : CacheConfig)
          (⟨[], []⟩ : CacheState Nat Nat) 1 0 42 0).2 1 9 99 9).2 11).lockKeys := by
  refine ⟨by decide, by decide, by decide, by decide⟩

/-- C2 witness: the amended hit semantics at a one-entry cache with
`ttl = 10`, entry computed at time 0 and hit at time 9. -/
theorem cache_hit_refresh_semantics_witness :
    wrapper (⟨none, some 10⟩ : CacheConfig)
        (⟨[(1, 42, 0)], [1]⟩ : CacheState Nat Nat) 1 9 99 9
        = (42, ⟨removeKey [(1, 42, 0)] 1 ++ [(1, 42, 0)],
            (ensureLock (⟨[(1, 42, 0)], [1]⟩ : CacheState Nat Nat) 1).lockKeys⟩)
    ∧ cacheLookup (removeKey [(1, 42, 0)] 1 ++ [(1, 42, 0)]) 1 = some (42, 0)
    ∧ 1 ∈ (ensureLock (⟨[(1, 42, 0)], [1]⟩ : CacheState Nat Nat) 1).lockKeys
    ∧ (∀ now₂, now₂ ≤ 0 + 10 →
        cacheLookup (sweep 10 ⟨removeKey [(1, 42, 0)] 1 ++ [(1, 42, 0)],
            (ensureLock (⟨[(1, 42, 0)], [1]⟩ : CacheState Nat Nat) 1).lockKeys⟩
            now₂).cache 1 = some (42, 0)
        ∧ 1 ∈ (sweep 10 ⟨removeKey [(1, 42, 0)] 1 ++ [(1, 42, 0)],
            (ensureLock (⟨[(1, 42, 0)], [1]⟩ : CacheState Nat Nat) 1).lockKeys⟩
            now₂).lockKeys)
    ∧ (∀ now₂, 0 + 10 < now₂ →
        cacheLookup (sweep 10 ⟨removeKey [(1, 42, 0)] 1 ++ [(1, 42, 0)],
            (ensureLock (⟨[(1, 42, 0)], [1]⟩ : CacheState Nat Nat) 1).lockKeys⟩
            now₂).cache 1 = none
        ∧ 1 ∉ (sweep 10 ⟨removeKey [(1, 42, 0)] 1 ++ [(1, 42, 0)],
            (ensureLock (⟨[(1, 42, 0)], [1]⟩ : CacheState Nat Nat) 1).lockKeys⟩
            now₂).lockKeys) :=
  cache_hit_refresh_semantics none 10 ⟨[(1, 42, 0)], [1]⟩ 1 42 0 9 99 9
    (by decide) (by decide)

end Opicrawler

namespace Opicrawler

variable {κ ν : Type} [DecidableEq κ]

/-- Assignment grows the cache by at most one entry. -/
theorem length_cacheAssign_le (c : List (κ × ν × Nat)) (k : κ) (v : ν)
    (ts : Nat) : (cacheAssign c k v ts).length ≤ c.length + 1 := by
  induction c with
  | nil => simp [cacheAssign]
  | cons e rest ih =>
    obtain ⟨k₁, v₁, ts₁⟩ := e
    by_cases hk : k = k₁ <;> simp [cacheAssign, hk] <;> omega

/-- Removing a key that is present shrinks the cache. -/
theorem length_removeKey_lt (c : List (κ × ν × Nat)) (k : κ) (v : ν) (ts : Nat)
    (h : cacheLookup c k = some (v, ts)) :
    (removeKey c k).length < c.length := by
  induction c with
  | nil => cases h
  | cons e rest ih =>
    obtain ⟨k₁, v₁, ts₁⟩ := e
    by_cases hk : k = k₁
    · have hhead : decide ((k₁, v₁, ts₁).1 ≠ k) = false := by
        simp only [decide_eq_false_iff_not, ne_eq, not_not]
        exact hk.symm
      unfold removeKey
      rw [List.filter_cons]
      simp only [hhead, Bool.false_eq_true, if_false, List.length_cons]
      have hrest : (List.filter (fun e => decide (e.1 ≠ k)) rest).length
          ≤ rest.length := List.length_filter_le _ _
      omega
    · simp only [cacheLookup, if_neg hk] at h
      have ihh := ih h
      have hhead : decide ((k₁, v₁, ts₁).1 ≠ k) = true := by
        simp only [decide_eq_true_eq]
        exact fun he => hk he.symm
      unfold removeKey at ihh ⊢
      rw [List.filter_cons]
      simp only [hhead, if_true, List.length_cons]
      omega

/-- Miss path size bound: with `max_size = m > 0` and at most `m` entries
before the call, at most `m` entries remain after eviction and insertion. -/
theorem wrapperMiss_size (m : Nat) (tt : Option Nat) (s : CacheState κ ν)
    (k : κ) (r : ν) (st : Nat) (hm : 0 < m) (hle : s.cache.length ≤ m) :
    (wrapperMiss ⟨some m, tt⟩ s k r st).2.cache.length ≤ m := by
  dsimp only [wrapperMiss]
  by_cases hge : s.cache.length ≥ m
  · rw [if_pos hge]
    cases hc : s.cache with
    | nil => rw [hc] at hge; simp at hge; omega
    | cons e rest =>
      obtain ⟨lk, lv, lts⟩ := e
      dsimp only
      have h1 : (cacheAssign rest k r st).length ≤ rest.length + 1 :=
        length_cacheAssign_le rest k r st
      have h2 : rest.length + 1 = s.cache.length := by rw [hc]; simp
      omega
  · rw [if_neg hge]
    have h1 : (cacheAssign s.cache k r st).length ≤ s.cache.length + 1 :=
      length_cacheAssign_le s.cache k r st
    omega

/-- Concrete run of the claim's example: `max_size = 2`, no TTL, inserting
keys 1, 2 then 3 (all misses). -/
def NatCache.run123 : CacheState Nat Nat :=
  (wrapper ⟨some 2, none⟩
    (wrapper ⟨some 2, none⟩
      (wrapper ⟨some 2, none⟩ (⟨[], []⟩ : CacheState Nat Nat) 1 0 10 0).2
      2 1 20 1).2
    3 2 30 2).2

/-- Concrete run distinguishing access order from insertion order:
`max_size = 2`, inserting keys 1 and 2, hitting key 1, then inserting
key 3. -/
def NatCache.runAccessOrder : CacheState Nat Nat :=
  (wrapper ⟨some 2, none⟩
    (wrapper ⟨some 2, none⟩
      (wrapper ⟨some 2, none⟩
        (wrapper ⟨some 2, none⟩ (⟨[], []⟩ : CacheState Nat Nat) 1 0 10 0).2
        2 1 20 1).2
      1 2 10 2).2
    3 3 30 3).2

/-- C3: a `CoalescingCache` with `max_size = m > 0` never exceeds `m` entries
after any mutation (wrapper call or sweep); when an insertion happens at
capacity, the evicted entry is the front of the recency-ordered cache — the
least recently used by access order, since hits move entries to the end —
and the evicted key's lock is removed.  The concrete runs: inserting keys
1, 2 then 3 at `max_size = 2` leaves exactly keys 2 and 3 with key 1's lock
removed; inserting 1, 2, hitting 1, then inserting 3 evicts key 2, not the
first-inserted key 1. -/
theorem lru_bounded_eviction (m : Nat) (tt : Option Nat) (s : CacheState κ ν)
    (k : κ) (now : Nat) (r : ν) (st : Nat) (hm : 0 < m)
    (hle : s.cache.length ≤ m) :
    (wrapper ⟨some m, tt⟩ s k now r st).2.cache.length ≤ m
    ∧ (∀ t now₂, (sweep t s now₂).cache.length ≤ s.cache.length)
    ∧ (∀ lk lv lts rest, s.cache = (lk, lv, lts) :: rest →
        cacheLookup s.cache k = none → m ≤ s.cache.length →
        (wrapper ⟨some m, tt⟩ s k now r st).2.cache = cacheAssign rest k r st
        ∧ (wrapper ⟨some m, tt⟩ s k now r st).2.lockKeys
            = (ensureLock s k).lockKeys.filter fun x => decide (x ≠ lk))
    ∧ (cacheLookup (NatCache.run123).cache 1 = none
        ∧ (cacheLookup (NatCache.run123).cache 2).isSome = true
        ∧ (cacheLookup (NatCache.run123).cache 3).isSome = true
        ∧ 1 ∉ (NatCache.run123).lockKeys
        ∧ 2 ∈ (NatCache.run123).lockKeys
        ∧ 3 ∈ (NatCache.run123).lockKeys
        ∧ (NatCache.run123).cache.length = 2)
    ∧ (cacheLookup (NatCache.runAccessOrder).cache 2 = none
        ∧ (cacheLookup (NatCache.runAccessOrder).cache 1).isSome = true
        ∧ (cacheLookup (NatCache.runAccessOrder).cache 3).isSome = true
        ∧ 2 ∉ (NatCache.runAccessOrder).lockKeys) := by
  refine ⟨?_, fun t now₂ => List.length_filter_le _ _,
    fun lk lv lts rest hc hmiss hcap => ?_, by decide, by decide⟩
  · dsimp only [wrapper]
    rw [ensureLock_cache]
    cases hfound : cacheLookup s.cache k with
    | some p =>
      obtain ⟨v, ts⟩ := p
      dsimp only
      by_cases hv : ttlCheck tt ts now = true
      · rw [if_pos hv]
        dsimp only [moveToEnd]
        rw [hfound]
        have h1 := length_removeKey_lt s.cache k v ts hfound
        simp only [CacheState.mk.injEq, List.length_append, List.length_singleton]
        omega
      · rw [if_neg hv]
        apply wrapperMiss_size m tt _ k r st hm
        rw [ensureLock_cache]
        exact hle
    | none =>
      dsimp only
      apply wrapperMiss_size m tt _ k r st hm
      rw [ensureLock_cache]
      exact hle
  · dsimp only [wrapper]
    rw [ensureLock_cache, hmiss]
    dsimp only [wrapperMiss]
    rw [ensureLock_cache]
    rw [if_pos (by omega : s.cache.length ≥ m)]
    rw [hc]
    exact ⟨rfl, rfl⟩

end Opicrawler

namespace Opicrawler

/-- C3 witness: the size invariant and eviction characterization at the empty
cache with `max_size = 2`, together with the two concrete runs. -/
theorem lru_bounded_eviction_witness :
    (wrapper (⟨some 2, none⟩ : CacheConfig) (⟨[], []⟩ : CacheState Nat Nat)
        1 0 10 0).2.cache.length ≤ 2
    ∧ (∀ t now₂, (sweep t (⟨[], []⟩ : CacheState Nat Nat) now₂).cache.length
        ≤ (⟨[], []⟩ : CacheState Nat Nat).cache.length)
    ∧ (∀ lk lv lts rest,
        (⟨[], []⟩ : CacheState Nat Nat).cache = (lk, lv, lts) :: rest →
        cacheLookup (⟨[], []⟩ : CacheState Nat Nat).cache 1 = none →
        2 ≤ (⟨[], []⟩ : CacheState Nat Nat).cache.length →
        (wrapper ⟨some 2, none⟩ (⟨[], []⟩ : CacheState Nat Nat)
            1 0 10 0).2.cache = cacheAssign rest 1 10 0
        ∧ (wrapper ⟨some 2, none⟩ (⟨[], []⟩ : CacheState Nat Nat)
            1 0 10 0).2.lockKeys
          = (ensureLock (⟨[], []⟩ : CacheState Nat Nat) 1).lockKeys.filter
              fun x => decide (x ≠ lk))
    ∧ (cacheLookup (NatCache.run123).cache 1 = none
        ∧ (cacheLookup (NatCache.run123).cache 2).isSome = true
        ∧ (cacheLookup (NatCache.run123).cache 3).isSome = true
        ∧ 1 ∉ (NatCache.run123).lockKeys
        ∧ 2 ∈ (NatCache.run123).lockKeys
        ∧ 3 ∈ (NatCache.run123).lockKeys
        ∧ (NatCache.run123).cache.length = 2)
    ∧ (cacheLookup (NatCache.runAccessOrder).cache 2 = none
        ∧ (cacheLookup (NatCache.runAccessOrder).cache 1).isSome = true
        ∧ (cacheLookup (NatCache.runAccessOrder).cache 3).isSome = true
        ∧ 2 ∉ (NatCache.runAccessOrder).lockKeys) :=
  lru_bounded_eviction 2 none ⟨[], []⟩ 1 0 10 0 (by decide) (by decide)

end Opicrawler

namespace Opicrawler

/-! ## Coalescing under concurrency (`CoalescingCache` wrapper, lines 43-60)

Interleaving model of N concurrent callers of the wrapped function sharing
one key, cache initially empty for that key, TTL not elapsed during the run.
Each caller is a task stepping through the wrapper body: acquire the per-key
`asyncio.Lock` (line 43; blocks while another task holds it), check the
cache under the lock (a hit returns the cached value and releases, lines
45-49), otherwise await the wrapped function — a suspension point during
which any other task may be scheduled but the lock stays held — then store
the result and release (lines 58-60).  `val n` is the value the n-th
invocation of the compute function returns (a fresh value per invocation, as
in the spec's scenario). -/

/-- Phase of one caller task: before the body, holding the lock before the
cache check, awaiting the compute call (lock held, with its invocation
index), or returned with a value. -/
inductive Phase where
  | start
  | locked
  | computing (invocation : Nat)
  | done (value : Nat)
deriving DecidableEq

/-- Tasks holding the per-key lock (in the critical section). -/
def Phase.isActive : Phase → Bool
  | .locked => true
  | .computing _ => true
  | _ => false

/-- Tasks that have returned. -/
def Phase.isDone : Phase → Bool
  | .done _ => true
  | _ => false

/-- Shared state of the run: the lock holder, the cache entry for the key,
the number of compute invocations so far, and each task's phase. -/
structure CoState where
  lock : Option Nat
  cache : Option Nat
  invocations : Nat
  tasks : List Phase
deriving DecidableEq

/-- Initial state of an N-caller run on an empty cache. -/
def initCo (n : Nat) : CoState :=
  { lock := none, cache := none, invocations := 0
    tasks := List.replicate n .start }

/-- One interleaving step: a scheduled task either acquires the free lock,
observes a cache hit and returns under the lock, begins the compute call on
a miss, or finishes its compute call, storing the result and returning. -/
inductive CoStep (val : Nat → Nat) : CoState → CoState → Prop where
  | acquire (s : CoState) (i : Nat) :
      s.tasks[i]? = some .start → s.lock = none →
      CoStep val s { s with lock := some i, tasks := s.tasks.set i .locked }
  | hit (s : CoState) (i : Nat) (v : Nat) :
      s.tasks[i]? = some .locked → s.cache = some v →
      CoStep val s { s with lock := none, tasks := s.tasks.set i (.done v) }
  | beginCompute (s : CoState) (i : Nat) :
      s.tasks[i]? = some .locked → s.cache = none →
      CoStep val s { s with invocations := s.invocations + 1
                            tasks := s.tasks.set i (.computing s.invocations) }
  | endCompute (s : CoState) (i : Nat) (k : Nat) :
      s.tasks[i]? = some (.computing k) →
      CoStep val s { s with cache := some (val k), lock := none
                            tasks := s.tasks.set i (.done (val k)) }

/-- States reachable by interleaving N callers from the initial state. -/
inductive CoReach (val : Nat → Nat) (n : Nat) : CoState → Prop where
  | init : CoReach val n (initCo n)
  | step {s t : CoState} : CoReach val n s → CoStep val s t → CoReach val n t

/-- Inductive invariant of the run: the task count is fixed; any task in the
critical section is the lock holder; and the shared state is in one of three
stages — nothing computed yet, exactly one compute call in flight (the
first), or the first computed value cached with every finished task holding
it. -/
def CoInv (val : Nat → Nat) (n : Nat) (s : CoState) : Prop :=
  s.tasks.length = n
  ∧ (∀ (i : Nat) (p : Phase), s.tasks[i]? = some p →
      p.isActive = true → s.lock = some i)
  ∧ ((s.cache = none ∧ s.invocations = 0
        ∧ ∀ (i : Nat) (p : Phase), s.tasks[i]? = some p →
            p.isDone = false ∧ ∀ k, p ≠ .computing k)
    ∨ (s.cache = none ∧ s.invocations = 1
        ∧ (∀ (i : Nat) (p : Phase), s.tasks[i]? = some p →
            p.isDone = false ∧ ∀ k, p = .computing k → k = 0)
        ∧ ∃ j : Nat, s.tasks[j]? = some (.computing 0))
    ∨ (s.cache = some (val 0) ∧ s.invocations = 1
        ∧ ∀ (i : Nat) (p : Phase), s.tasks[i]? = some p →
            (∀ k, p ≠ .computing k) ∧ ∀ w, p = .done w → w = val 0))

/-- The invariant holds initially. -/
theorem coInv_init (val : Nat → Nat) (n : Nat) : CoInv val n (initCo n) := by
  refine ⟨by simp [initCo], fun i p hp ha => ?_, Or.inl ⟨rfl, rfl, fun i p hp => ?_⟩⟩
  · have hmem : p ∈ (initCo n).tasks := List.getElem?_mem hp
    have : p = .start := List.eq_of_mem_replicate hmem
    subst this
    cases ha
  · have hmem : p ∈ (initCo n).tasks := List.getElem?_mem hp
    have : p = .start := List.eq_of_mem_replicate hmem
    subst this
    exact ⟨rfl, fun k h => by cases h⟩

end Opicrawler

namespace Opicrawler

/-- Transfer of a per-task property across a phase update: it holds at every
position of `l.set i x` when it holds at every old position other than `i`
and at the new phase `x`. -/
theorem forall_set_phase {l : List Phase} {i : Nat} {x : Phase}
    (hilt : i < l.length) (P : Phase → Prop)
    (hold : ∀ (j : Nat) (p : Phase), j ≠ i → l[j]? = some p → P p)
    (hx : P x) :
    ∀ (j : Nat) (p : Phase), (l.set i x)[j]? = some p → P p := by
  intro j p hp
  by_cases hij : i = j
  · subst hij
    rw [List.getElem?_set_self hilt] at hp
    cases hp
    exact hx
  · rw [List.getElem?_set_ne hij] at hp
    exact hold j p (fun h => hij h.symm) hp

/-- The invariant is preserved by every interleaving step. -/
theorem coInv_step {val : Nat → Nat} {n : Nat} {s t : CoState}
    (hinv : CoInv val n s) (hstep : CoStep val s t) : CoInv val n t := by
  obtain ⟨hlen, hmutex, hdisj⟩ := hinv
  cases hstep with
  | acquire i hi hlock =>
    obtain ⟨hilt, -⟩ := List.getElem?_eq_some_iff.mp hi
    refine ⟨by simpa using hlen, ?_, ?_⟩
    · intro j p hp ha
      by_cases hij : i = j
      · subst hij; rfl
      · rw [List.getElem?_set_ne hij] at hp
        exact absurd (hmutex j p hp ha) (by rw [hlock]; exact fun h => by cases h)
    · rcases hdisj with ⟨hc, h0, hall⟩ | ⟨hc, h1, hall, j₀, hj₀⟩ | ⟨hc, h1, hall⟩
      · refine Or.inl ⟨hc, h0, ?_⟩
        refine forall_set_phase hilt _ (fun j p _ hp => hall j p hp) ?_
        exact ⟨rfl, fun k h => by cases h⟩
      · refine Or.inr (Or.inl ⟨hc, h1, ?_, ?_⟩)
        · refine forall_set_phase hilt _ (fun j p _ hp => hall j p hp) ?_
          exact ⟨rfl, fun k h => by cases h⟩
        · refine ⟨j₀, ?_⟩
          have hji : j₀ ≠ i := by
            intro h
            subst h
            rw [hi] at hj₀
            cases hj₀
          rw [List.getElem?_set_ne (fun h => hji h.symm)]
          exact hj₀
      · refine Or.inr (Or.inr ⟨hc, h1, ?_⟩)
        refine forall_set_phase hilt _ (fun j p _ hp => hall j p hp) ?_
        exact ⟨fun k h => (nomatch h), fun w h => (nomatch h)⟩
  | hit i v hi hcache =>
    obtain ⟨hilt, -⟩ := List.getElem?_eq_some_iff.mp hi
    have hlocki : s.lock = some i := hmutex i .locked hi rfl
    rcases hdisj with ⟨hc, h0, hall⟩ | ⟨hc, h1, hall, j₀, hj₀⟩ | ⟨hc, h1, hall⟩
    · rw [hc] at hcache; cases hcache
    · rw [hc] at hcache; cases hcache
    · rw [hc] at hcache
      have hv : v = val 0 := by cases hcache; rfl
      subst hv
      refine ⟨by simpa using hlen, ?_, Or.inr (Or.inr ⟨hc, h1, ?_⟩)⟩
      · intro j p hp ha
        exfalso
        by_cases hij : i = j
        · subst hij
          rw [List.getElem?_set_self hilt] at hp
          cases hp
          cases ha
        · rw [List.getElem?_set_ne hij] at hp
          have := hmutex j p hp ha
          rw [hlocki] at this
          cases this
          exact hij rfl
      · refine forall_set_phase hilt _ (fun j p _ hp => hall j p hp) ?_
        exact ⟨fun k h => (nomatch h), fun w h => (Phase.done.inj h).symm⟩
  | beginCompute i hi hcache =>
    obtain ⟨hilt, -⟩ := List.getElem?_eq_some_iff.mp hi
    have hlocki : s.lock = some i := hmutex i .locked hi rfl
    rcases hdisj with ⟨hc, h0, hall⟩ | ⟨hc, h1, hall, j₀, hj₀⟩ | ⟨hc, h1, hall⟩
    · refine ⟨by simpa using hlen, ?_, ?_⟩
      · intro j p hp ha
        by_cases hij : i = j
        · subst hij
          exact hlocki
        · rw [List.getElem?_set_ne hij] at hp
          exact hmutex j p hp ha
      · refine Or.inr (Or.inl ⟨hcache, by rw [h0], ?_, ?_⟩)
        · rw [h0]
          refine forall_set_phase hilt _ ?_ ?_
          · intro j p _ hp
            refine ⟨(hall j p hp).1, fun k hk => absurd hk ((hall j p hp).2 k)⟩
          · exact ⟨rfl, fun k hk => by cases hk; rfl⟩
        · refine ⟨i, ?_⟩
          rw [h0]
          exact List.getElem?_set_self hilt
    · exfalso
      have hj₀lock : s.lock = some j₀ := hmutex j₀ (.computing 0) hj₀ rfl
      rw [hlocki] at hj₀lock
      cases hj₀lock
      rw [hi] at hj₀
      cases hj₀
    · rw [hc] at hcache; cases hcache
  | endCompute i k hi =>
    obtain ⟨hilt, -⟩ := List.getElem?_eq_some_iff.mp hi
    have hlocki : s.lock = some i := hmutex i (.computing k) hi rfl
    rcases hdisj with ⟨hc, h0, hall⟩ | ⟨hc, h1, hall, j₀, hj₀⟩ | ⟨hc, h1, hall⟩
    · exact absurd rfl ((hall i (.computing k) hi).2 k)
    · have hk0 : k = 0 := (hall i (.computing k) hi).2 k rfl
      subst hk0
      refine ⟨by simpa using hlen, ?_, Or.inr (Or.inr ⟨rfl, h1, ?_⟩)⟩
      · intro j p hp ha
        exfalso
        by_cases hij : i = j
        · subst hij
          rw [List.getElem?_set_self hilt] at hp
          cases hp
          cases ha
        · rw [List.getElem?_set_ne hij] at hp
          have := hmutex j p hp ha
          rw [hlocki] at this
          cases this
          exact hij rfl
      · refine forall_set_phase hilt _ ?_ ?_
        · intro j p hne hp
          constructor
          · intro kj hkj
            subst hkj
            have := hmutex j _ hp rfl
            rw [hlocki] at this
            cases this
            exact hne rfl
          · intro w hw
            have := (hall j p hp).1
            rw [hw] at this
            cases this
        · exact ⟨fun kj h => (nomatch h), fun w h => (Phase.done.inj h).symm⟩
    · exact absurd rfl ((hall i (.computing k) hi).1 k)

/-- Every reachable state satisfies the invariant. -/
theorem coInv_reach {val : Nat → Nat} {n : Nat} {s : CoState}
    (h : CoReach val n s) : CoInv val n s := by
  induction h with
  | init => exact coInv_init val n
  | step _ hstep ih => exact coInv_step ih hstep

end Opicrawler

namespace Opicrawler

/-- C1: for N concurrent callers of a `CoalescingCache`-wrapped operation
with the same key, cache initially empty for that key and TTL not elapsed,
at no time is more than one computation in flight for the key, and once
every caller has settled, the compute function has been invoked exactly once
and every caller has received the identical value — the one the single
invocation produced. -/
theorem coalescing_single_flight (val : Nat → Nat) (n : Nat) (s : CoState)
    (hreach : CoReach val n s) :
    (∀ (i j ki kj : Nat), s.tasks[i]? = some (Phase.computing ki) →
        s.tasks[j]? = some (Phase.computing kj) → i = j)
    ∧ (0 < n → (∀ p ∈ s.tasks, p.isDone = true) →
        s.invocations = 1 ∧ ∀ p ∈ s.tasks, p = Phase.done (val 0)) := by
  obtain ⟨hlen, hmutex, hdisj⟩ := coInv_reach hreach
  constructor
  · intro i j ki kj hi hj
    have h1 := hmutex i _ hi rfl
    have h2 := hmutex j _ hj rfl
    rw [h1] at h2
    cases h2
    rfl
  · intro hn hdone
    rcases hdisj with ⟨hc, h0, hall⟩ | ⟨hc, h1, hall, j₀, hj₀⟩ | ⟨hc, h1, hall⟩
    · exfalso
      have hlt : 0 < s.tasks.length := by rw [hlen]; exact hn
      obtain ⟨p₀, hp₀⟩ : ∃ p, s.tasks[0]? = some p := by
        rcases hg : s.tasks[0]? with - | p
        · rw [List.getElem?_eq_none_iff] at hg; omega
        · exact ⟨p, rfl⟩
      have hd := hdone p₀ (List.getElem?_mem hp₀)
      rw [(hall 0 p₀ hp₀).1] at hd
      cases hd
    · exfalso
      have hd := hdone _ (List.getElem?_mem hj₀)
      cases hd
    · refine ⟨h1, fun p hp => ?_⟩
      obtain ⟨jj, hjj⟩ := List.mem_iff_getElem?.mp hp
      have hd := hdone p hp
      cases p with
      | done w => rw [(hall jj _ hjj).2 w rfl]
      | start => cases hd
      | locked => cases hd
      | computing kk => cases hd

/-- C1 witness: a two-caller run in which caller 0 acquires the lock,
computes and caches the value, and caller 1 then coalesces onto the cached
value, with the fresh-value compute function `k + 7`. -/
theorem coalescing_single_flight_witness :
    (⟨none, some 7, 1, [.done 7, .done 7]⟩ : CoState).invocations = 1
    ∧ ∀ p ∈ (⟨none, some 7, 1, [.done 7, .done 7]⟩ : CoState).tasks,
        p = Phase.done ((fun k => k + 7) 0) :=
  (coalescing_single_flight (fun k => k + 7) 2
    ⟨none, some 7, 1, [.done 7, .done 7]⟩
    (CoReach.step (CoReach.step (CoReach.step (CoReach.step (CoReach.step
      CoReach.init
      (CoStep.acquire _ 0 rfl rfl))
      (CoStep.beginCompute _ 0 rfl rfl))
      (CoStep.endCompute _ 0 0 rfl))
      (CoStep.acquire _ 1 rfl rfl))
      (CoStep.hit _ 1 7 rfl rfl))).2 (by decide) (by decide)

end Opicrawler
